import Mathlib

/-!
# Verification of the migraptor migration pipeline

Shallow embedding of the Go sources of `yodamad/migraptor`:
* `internal/migration/groups.go` — `GroupMigrator`, `ProjectMigrator`,
  `ImageMigrator` (`ShouldMigrateProject`, `ListProjects`, `BackupImages`,
  `DeleteRegistries`, `CheckIfRemainingImages`, `RestoreImages`,
  `TransferGroup`, `TransferProject`, `ArchiveProject`, `UnarchiveProject`).
* `cmd/migrate` root command (`runMigration`) — the phased pipeline.

Collaborators (GitLab API client, Docker client) are modelled as an
oracle environment `Env`; every mutating collaborator call performed by
the pipeline is recorded as an `Event` in a trace, and fallible calls
return `Option` results supplied by the environment.
-/

namespace Migraptor

/-- GitLab group, as used by the pipeline: `{ID, Path, FullPath}`. -/
structure Group where
  id : Nat
  path : String
  fullPath : String
deriving DecidableEq, Repr

/-- `ProjectInfo` from `groups.go`. -/
structure ProjectInfo where
  id : Nat
  name : String
  path : String
  containerRegistryEnabled : Bool
  archived : Bool
  registryRepositoriesIDs : List Nat
deriving DecidableEq, Repr

/-- `RegistryRepository` (GitLab SDK), fields used by the pipeline. -/
structure RegistryRepository where
  id : Nat
  path : String
deriving DecidableEq, Repr

/-- `RegistryRepositoryTag` (GitLab SDK), fields used by the pipeline. -/
structure RegistryTag where
  name : String
  path : String
  location : String
deriving DecidableEq, Repr

/-- `ImageInfo` from `groups.go`. -/
structure ImageInfo where
  name : String
  path : String
  location : String
deriving DecidableEq, Repr

/-- One mutating collaborator call issued by the pipeline. -/
inductive Event where
  | pullImage (ref : String)
  | tagImage (src dst : String)
  | pushImage (ref : String)
  | deleteRepo (projectId repoId : Nat)
  | transferGroup (groupId targetGroupId : Nat)
  | transferProject (projectId targetGroupId : Nat)
  | archiveProject (projectId : Nat)
  | unarchiveProject (projectId : Nat)
  | createGroup (path : String) (parentId : Nat)
deriving DecidableEq, Repr

/-- Is the event a Docker image pull? -/
def Event.isPull : Event → Bool
  | .pullImage _ => true
  | _ => false

/-- Is the event a group or project transfer call? -/
def Event.isTransferCall : Event → Bool
  | .transferGroup _ _ => true
  | .transferProject _ _ => true
  | _ => false

/-- Is the event a group transfer call? -/
def Event.isGroupTransfer : Event → Bool
  | .transferGroup _ _ => true
  | _ => false

/-- Is the event a project transfer call? -/
def Event.isProjectTransfer : Event → Bool
  | .transferProject _ _ => true
  | _ => false

/-- Is the event a Docker tag or push (restore-side) call? -/
def Event.isRestoreCall : Event → Bool
  | .tagImage _ _ => true
  | .pushImage _ => true
  | _ => false

/-- Is the event a registry-repository delete call? -/
def Event.isRegDelete : Event → Bool
  | .deleteRepo _ _ => true
  | _ => false

/-- Is the event an archive or unarchive call? -/
def Event.isArchival : Event → Bool
  | .archiveProject _ => true
  | .unarchiveProject _ => true
  | _ => false

/-- Is the event a group creation call? -/
def Event.isGroupCreate : Event → Bool
  | .createGroup _ _ => true
  | _ => false

/-- Oracle environment standing for the two collaborators (GitLab API
client and Docker engine client).  Fallible calls return `Option`
results (`none` = the Go call returned a non-nil error); boolean oracles
decide success of Docker operations.  `remainingRepos pid k` is the
repository list the eviction poll observes for project `pid` at its
`k`-th attempt (the poll's responses vary over time, so it gets its own
time-indexed oracle). -/
structure Env where
  searchGroup : String → Option Group
  listProjects : Nat → Option (List ProjectInfo)
  subProjectsRaw : List ProjectInfo
  listRegistryRepositories : Nat → Option (List RegistryRepository)
  listTags : Nat → Nat → Option (List RegistryTag)
  pullOk : String → Bool
  tagOk : String → String → Bool
  transferGroupResp : Nat → Nat → Option Nat
  transferProjectResp : Nat → Nat → Option Nat
  archiveResp : Nat → Option Nat
  unarchiveResp : Nat → Option Nat
  createGroup : String → Nat → Option Group
  remainingRepos : Nat → Nat → List RegistryRepository

/-- The configuration fields the pipeline reads (`check.CheckBeforeStarting`
is trusted to deliver them, per the spec's configuration collaborator). -/
structure Config where
  dryRun : Bool
  keepParent : Bool
  projectsList : List String
  tagsList : List String
  oldGroupName : String
  newGroupName : String

/-- Outcome of a run: `exit = some c` means the process called
`os.Exit(c)`; `none` means the run fell through to the end.  `trace`
lists every mutating collaborator call issued, in order. -/
structure RunOutcome where
  exit : Option Nat
  trace : List Event
deriving DecidableEq, Repr

/-! ## String helpers (Go `strings` package operations used) -/

/-- Go `strings.Replace(s, old, new, 1)` on character lists: replace the
first occurrence of `old` in `s` by `new`; with `old` empty, insert
`new` at the front. -/
def goReplace1 : List Char → List Char → List Char → List Char
  | s, old, new =>
    match s with
    | [] => if old.isEmpty then new else []
    | c :: rest =>
      if old.isPrefixOf (c :: rest) then new ++ (c :: rest).drop old.length
      else c :: goReplace1 rest old new

/-- Go `strings.Replace(s, old, new, 1)` on strings. -/
def stringsReplaceOnce (s old new : String) : String :=
  String.mk (goReplace1 s.data old.data new.data)

/-- Go `strings.Trim(s, "\"")`: drop all leading and trailing `"`. -/
def trimQuotes (s : String) : String :=
  String.mk (((s.data.dropWhile (· == '"')).reverse.dropWhile (· == '"')).reverse)

/-- Go `strings.TrimPrefix(s, "/")`: drop one leading slash if present. -/
def trimLeadingSlash (s : String) : String :=
  match s.data with
  | '/' :: rest => String.mk rest
  | _ => s

/-- Accumulator-style splitting of a character list on `/`. -/
def splitSlashAux : List Char → List Char → List (List Char)
  | [], acc => [acc.reverse]
  | c :: cs, acc =>
    if c = '/' then acc.reverse :: splitSlashAux cs []
    else splitSlashAux cs (c :: acc)

/-- Last segment of `strings.Split(s, "/")`, as used to name the
destination subgroup (`oldPathParts[len(oldPathParts)-1]`). -/
def lastSegment (s : String) : String :=
  String.mk ((splitSlashAux s.data []).getLastD [])

/-! ## Project selection (`ShouldMigrateProject`, `ListProjects`) -/

/-- `ShouldMigrateProject` from `groups.go`: with an empty filter every
project qualifies; otherwise a project qualifies if its path is in the
filter list, or if it has no container registry and `keepParent` is set. -/
def ShouldMigrateProject (project : ProjectInfo) (filterList : List String)
    (keepParent : Bool) : Bool :=
  if filterList.isEmpty then true
  else if filterList.contains project.path then true
  else if !project.containerRegistryEnabled && keepParent then true
  else false

/-- The filter applied by `ListProjects`: with a non-empty filter list, a
project is kept only when its path is in the list (no registry / keep-parent
exception here, unlike `ShouldMigrateProject`). -/
def projectPathFilter (filterList : List String) (ps : List ProjectInfo) :
    List ProjectInfo :=
  ps.filter (fun p => filterList.isEmpty || filterList.contains p.path)

/-- `ListProjects` from `groups.go`: list the group's projects from the
platform, apply `projectPathFilter`, and rebuild `ProjectInfo` records
(the Go code does not copy `RegistryRepositoriesIDs`, leaving it nil). -/
def ListProjects (env : Env) (groupId : Nat) (filterList : List String) :
    Option (List ProjectInfo) :=
  (env.listProjects groupId).map fun ps =>
    (projectPathFilter filterList ps).map
      fun p => { p with registryRepositoriesIDs := [] }

/-- Modelled from the spec: `GetSubGroupsAndProjects` (the recursive
Group Discoverer) is called by `runMigration` but its body is not under
`src/`.  Per spec §4.1 it recurses through the subgroup tree collecting
projects, filtered at every level by the same project-list filter it is
given; we flatten the recursion into the environment-supplied subtree
project list `subProjectsRaw` with the filter applied. -/
def GetSubGroupsAndProjects (env : Env) (filterList : List String) :
    List ProjectInfo :=
  projectPathFilter filterList env.subProjectsRaw

/-! ## Image backup (`GetImages`, `BackupImages`) -/

/-- Tag filter of `GetImages`: empty filter keeps all tags, otherwise a
tag is kept when its name is in the filter list. -/
def keepTag (tagFilter : List String) (t : RegistryTag) : Bool :=
  tagFilter.isEmpty || tagFilter.contains t.name

/-- `GetImages` from `groups.go`: list the repository's tags and keep
those passing the tag filter. -/
def GetImages (env : Env) (projectId repoId : Nat) (tagFilter : List String) :
    Option (List ImageInfo) :=
  (env.listTags projectId repoId).map fun tags =>
    (tags.filter (keepTag tagFilter)).map fun t => ⟨t.name, t.path, t.location⟩

/-- The pull loop of `BackupImages` over one repository's retained
images: in dry-run the pull is skipped, otherwise a failed pull aborts
with an error immediately.  Every attempted image's location is appended
to the backup reference list (also in dry-run). -/
def backupPulls (env : Env) (dryRun : Bool) :
    List ImageInfo → Option (List String) × List Event
  | [] => (some [], [])
  | img :: rest =>
    if dryRun then
      match backupPulls env dryRun rest with
      | (o, tr) => (o.map (img.location :: ·), tr)
    else if env.pullOk img.location then
      match backupPulls env dryRun rest with
      | (o, tr) => (o.map (img.location :: ·), Event.pullImage img.location :: tr)
    else (none, [Event.pullImage img.location])

/-- The repository loop of `BackupImages`: a failed tag listing or an
empty retained-image list skips the repository (`continue`); a pull
failure aborts the whole backup. -/
def backupRepos (env : Env) (dryRun : Bool) (projectId : Nat)
    (tagFilter : List String) :
    List RegistryRepository → Option (List String) × List Event
  | [] => (some [], [])
  | repo :: rest =>
    match GetImages env projectId repo.id tagFilter with
    | none => backupRepos env dryRun projectId tagFilter rest
    | some images =>
      if images.isEmpty then backupRepos env dryRun projectId tagFilter rest
      else
        match backupPulls env dryRun images with
        | (none, tr) => (none, tr)
        | (some refs, tr) =>
          match backupRepos env dryRun projectId tagFilter rest with
          | (o, tr2) => (o.map (refs ++ ·), tr ++ tr2)

/-- `BackupImages` from `groups.go`: `none` = returned an error (failed
repository listing, or a failed pull); `some (refs, repos)` = the backup
reference list together with the project's repository list (empty lists
when the project has no registry repositories). -/
def BackupImages (env : Env) (dryRun : Bool) (project : ProjectInfo)
    (tagFilter : List String) :
    Option (List String × List RegistryRepository) × List Event :=
  match env.listRegistryRepositories project.id with
  | none => (none, [])
  | some repos =>
    if repos.isEmpty then (some ([], []), [])
    else
      match backupRepos env dryRun project.id tagFilter repos with
      | (none, tr) => (none, tr)
      | (some refs, tr) => (some (refs, repos), tr)

/-! ## Registry eviction and the consistency poll -/

/-- `DeleteRegistries` from `groups.go`: one delete call per repository
(skipped in dry-run); per-repository failures are logged, never fatal,
so only the issued calls matter. -/
def DeleteRegistries (dryRun : Bool) (projectId : Nat)
    (repos : List RegistryRepository) : List Event :=
  if dryRun then []
  else repos.map fun r => Event.deleteRepo projectId r.id

/-- Modelled from the spec: `DeleteRegistries` has no caller under
`src/`; per the spec's control flow (§2: Backup → Evict) the
repositories returned by a successful backup of a project are deleted
right after that backup. -/
def backupThenEvict (env : Env) (dryRun : Bool) (p : ProjectInfo)
    (tags : List String) : Option (List String) × List Event :=
  match BackupImages env dryRun p tags with
  | (none, tr) => (none, tr)
  | (some (refs, repos), tr) => (some refs, tr ++ DeleteRegistries dryRun p.id repos)

/-- The inner wait loop of `CheckIfRemainingImages` for one project:
at each attempt, success when the observed repository list is empty;
once the retry budget is exhausted the loop gives up (`false`). -/
def pollLoop (env : Env) (pid : Nat) : Nat → Nat → Bool
  | attempt, remaining =>
    if (env.remainingRepos pid attempt).isEmpty then true
    else
      match remaining with
      | 0 => false
      | r + 1 => pollLoop env pid (attempt + 1) r

/-- `CheckIfRemainingImages` from `groups.go`: for each project with an
enabled registry, poll its repository list with a budget of
`maxRetries = 30`; on exhaustion it logs a warning *and returns an
error* (`true` = returned nil, `false` = returned an error).  In
dry-run the first registry-enabled project `break`s out of the whole
loop, so the function returns nil.  The Go `tagFilter` parameter is
unused. -/
def CheckIfRemainingImages (env : Env) (dryRun : Bool) :
    List ProjectInfo → Bool
  | [] => true
  | p :: rest =>
    if p.containerRegistryEnabled then
      if dryRun then true
      else if pollLoop env p.id 0 30 then CheckIfRemainingImages env dryRun rest
      else false
    else CheckIfRemainingImages env dryRun rest

/-! ## Image restore (`RestoreImages`) -/

/-- One iteration of the `RestoreImages` loop: trim quotes, rewrite the
path by first-occurrence replacement (the Go `keepParent` branches are
textually identical), then tag and push unless dry-run; a failed tag
skips the push (`continue`). -/
def restoreOneImage (env : Env) (dryRun : Bool) (img : String)
    (oldFullPath newPath : String) (keepParent : Bool) : List Event :=
  let img' := trimQuotes img
  let newImage :=
    if keepParent then stringsReplaceOnce img' (trimQuotes oldFullPath) newPath
    else stringsReplaceOnce img' (trimQuotes oldFullPath) newPath
  if dryRun then []
  else if env.tagOk img' newImage then
    [Event.tagImage img' newImage, Event.pushImage newImage]
  else [Event.tagImage img' newImage]

/-- `RestoreImages` from `groups.go`: per-image tag-and-push; all
failures are logged and skipped, so the function always returns nil. -/
def RestoreImages (env : Env) (dryRun : Bool) (imageList : List String)
    (oldFullPath newPath : String) (keepParent : Bool) : List Event :=
  if imageList.isEmpty then []
  else imageList.flatMap fun img =>
    restoreOneImage env dryRun img oldFullPath newPath keepParent

/-! ## The pipeline (`runMigration` from `cmd/migrate`) -/

/-- The unarchive step of the backup loop: only for archived projects;
dry-run issues no call; a client error or a status outside {200, 201}
is an error, which makes the backup loop `continue` to the next
project. -/
def unarchiveStep (env : Env) (cfg : Config) (p : ProjectInfo) :
    Bool × List Event :=
  if p.archived then
    if cfg.dryRun then (true, [])
    else
      match env.unarchiveResp p.id with
      | none => (false, [Event.unarchiveProject p.id])
      | some code => (code == 201 || code == 200, [Event.unarchiveProject p.id])
  else (true, [])

/-- The backup loop of `runMigration`: for each project passing
`ShouldMigrateProject`, unarchive if needed (failure skips the
project), then back up its images when the registry is enabled.  A
backup error is fatal (`none`, leading to `os.Exit(99)`); otherwise the
per-project reference lists are recorded (also when empty). -/
def backupPhase (env : Env) (cfg : Config) :
    List ProjectInfo → Option (List (Nat × List String)) × List Event
  | [] => (some [], [])
  | p :: rest =>
    if ShouldMigrateProject p cfg.projectsList cfg.keepParent then
      match unarchiveStep env cfg p with
      | (false, tr0) =>
        match backupPhase env cfg rest with
        | (o, tr) => (o, tr0 ++ tr)
      | (true, tr0) =>
        if p.containerRegistryEnabled then
          match BackupImages env cfg.dryRun p cfg.tagsList with
          | (none, tr1) => (none, tr0 ++ tr1)
          | (some (refs, _), tr1) =>
            match backupPhase env cfg rest with
            | (o, tr) => (o.map ((p.id, refs) :: ·), tr0 ++ tr1 ++ tr)
        else
          match backupPhase env cfg rest with
          | (o, tr) => (o, tr0 ++ tr)
    else backupPhase env cfg rest

/-- The group-transfer decision of `runMigration`.  Result:
`(ok, group, trace)`; `ok = false` leads to `os.Exit(99)`; `group` is
the destination group the restore loop will transfer projects into.
With `keepParent` and an empty filter: one whole-group transfer,
successful exactly on status 201.  With `keepParent` and a non-empty
filter: locate-or-create a subgroup named after the last segment of the
source group's path under the destination (note: `CreateGroup` is *not*
dry-run guarded in the source).  Without `keepParent`: nothing. -/
def transferGroupPhase (env : Env) (cfg : Config) (groupFound newGroup : Group)
    (newGroupPath : String) : Bool × Group × List Event :=
  if cfg.keepParent then
    if cfg.projectsList.isEmpty then
      if cfg.dryRun then (true, newGroup, [])
      else
        match env.transferGroupResp groupFound.id newGroup.id with
        | none => (false, newGroup, [Event.transferGroup groupFound.id newGroup.id])
        | some code =>
          (code == 201, newGroup, [Event.transferGroup groupFound.id newGroup.id])
    else
      let simplePath := lastSegment groupFound.path
      let newGroupFullPath := newGroupPath ++ "/" ++ simplePath
      match env.searchGroup newGroupFullPath with
      | some g => (true, g, [])
      | none =>
        match env.createGroup simplePath newGroup.id with
        | none => (false, newGroup, [Event.createGroup simplePath newGroup.id])
        | some g => (true, g, [Event.createGroup simplePath newGroup.id])
  else (true, newGroup, [])

/-- The re-archive step at the end of a project's restore processing:
only for originally archived projects, skipped in dry-run; the call is
issued regardless of its own outcome (failure only logged). -/
def archiveStep (cfg : Config) (p : ProjectInfo) : List Event :=
  if p.archived then
    if cfg.dryRun then [] else [Event.archiveProject p.id]
  else []

/-- Tail of a project's restore processing, after the transfer step:
restore the recorded images (if any were recorded and non-empty), then
re-archive if originally archived.  `RestoreImages` never returns an
error, so its error branch in the source is dead. -/
def restoreTail (env : Env) (cfg : Config)
    (projImages : List (Nat × List String))
    (oldGroupFullPath oldGroupPath newGroupPath : String)
    (p : ProjectInfo) : List Event :=
  (match projImages.lookup p.id with
   | none => []
   | some refs =>
     if refs.isEmpty then []
     else
       let newPath :=
         if cfg.keepParent then newGroupPath ++ "/" ++ oldGroupPath
         else newGroupPath
       RestoreImages env cfg.dryRun refs oldGroupFullPath newPath cfg.keepParent)
  ++ archiveStep cfg p

/-- One project's restore processing: transfer the project individually
when hierarchy is flattened or a project filter is present (a failed
transfer `continue`s, skipping restore *and* re-archive), then
`restoreTail`. -/
def restoreProject (env : Env) (cfg : Config) (targetGroupId : Nat)
    (projImages : List (Nat × List String))
    (oldGroupFullPath oldGroupPath newGroupPath : String)
    (p : ProjectInfo) : List Event :=
  if !cfg.keepParent || !cfg.projectsList.isEmpty then
    if cfg.dryRun then
      restoreTail env cfg projImages oldGroupFullPath oldGroupPath newGroupPath p
    else
      match env.transferProjectResp p.id targetGroupId with
      | none => [Event.transferProject p.id targetGroupId]
      | some _ =>
        Event.transferProject p.id targetGroupId ::
          restoreTail env cfg projImages oldGroupFullPath oldGroupPath newGroupPath p
  else restoreTail env cfg projImages oldGroupFullPath oldGroupPath newGroupPath p

/-- The restore loop of `runMigration` over all discovered projects. -/
def restorePhase (env : Env) (cfg : Config) (targetGroupId : Nat)
    (projImages : List (Nat × List String))
    (oldGroupFullPath oldGroupPath newGroupPath : String) :
    List ProjectInfo → List Event
  | [] => []
  | p :: rest =>
    (if ShouldMigrateProject p cfg.projectsList cfg.keepParent then
      restoreProject env cfg targetGroupId projImages oldGroupFullPath
        oldGroupPath newGroupPath p
     else []) ++
    restorePhase env cfg targetGroupId projImages oldGroupFullPath
      oldGroupPath newGroupPath rest

/-- The pipeline from the backup loop onward (after group discovery and
project listing): backup all, gate on the eviction-consistency poll
(only when at least one project recorded a backup entry), group
transfer decision, then restore all. -/
def runCore (env : Env) (cfg : Config) (groupFound newGroup : Group)
    (newGroupPath : String) (allProjects : List ProjectInfo) : RunOutcome :=
  match backupPhase env cfg allProjects with
  | (none, tr1) => ⟨some 99, tr1⟩
  | (some projImages, tr1) =>
    if !projImages.isEmpty && !CheckIfRemainingImages env cfg.dryRun allProjects then
      ⟨some 99, tr1⟩
    else
      match transferGroupPhase env cfg groupFound newGroup newGroupPath with
      | (false, _, tr2) => ⟨some 99, tr1 ++ tr2⟩
      | (true, g2, tr2) =>
        ⟨none, tr1 ++ tr2 ++
          restorePhase env cfg g2.id projImages groupFound.fullPath
            groupFound.path newGroupPath allProjects⟩

/-- `runMigration` from the migrate command, from the source-group
search onward (client construction and configuration checks are the
trusted collaborators' job).  Exit codes as in the source: 321 when the
source group is not found, 99 on destination search failure and on
backup/consistency/transfer failures, 1 when project listing fails or
yields no projects. -/
def runMigration (env : Env) (cfg : Config) : RunOutcome :=
  match env.searchGroup cfg.oldGroupName with
  | none => ⟨some 321, []⟩
  | some groupFound =>
    let newGroupPath := trimLeadingSlash cfg.newGroupName
    match env.searchGroup newGroupPath with
    | none => ⟨some 99, []⟩
    | some newGroup =>
      match ListProjects env groupFound.id cfg.projectsList with
      | none => ⟨some 1, []⟩
      | some projects =>
        if projects.isEmpty then ⟨some 1, []⟩
        else
          runCore env cfg groupFound newGroup newGroupPath
            (projects ++ GetSubGroupsAndProjects env cfg.projectsList)

end Migraptor

namespace Migraptor

/-! ## Properties of the project selector (claim C3) -/

/-- C3: for every project `p`, filter list `F` and preserve-hierarchy
flag `k`, `ShouldMigrateProject p F k` is true when `F` is empty, and
for non-empty `F` it is true exactly when `p.path ∈ F` or `p` has its
container registry disabled while `k` is set.  (The function is pure by
construction: it is a function of its arguments alone.) -/
theorem c3_shouldMigrateProject_spec (p : ProjectInfo) (F : List String) (k : Bool) :
    ShouldMigrateProject p F k = true ↔
      F = [] ∨ p.path ∈ F ∨ (p.containerRegistryEnabled = false ∧ k = true) := by
  rcases F with _ | ⟨f, fs⟩
  · simp [ShouldMigrateProject]
  · by_cases hmem : p.path ∈ f :: fs
    · simp [ShouldMigrateProject, hmem]
    · by_cases hreg : p.containerRegistryEnabled
      · simp [ShouldMigrateProject, hmem, hreg]
      · cases k <;> simp_all [ShouldMigrateProject]

/-! ## Properties of first-occurrence replacement (claim C5) -/

/-- Replacing the first occurrence of `a` in `a ++ s` by `b` yields
`b ++ s`: when the pattern sits at the front, the replacement rewrites
exactly the front. -/
theorem goReplace1_cancel (a b s : List Char) :
    goReplace1 (a ++ s) a b = b ++ s := by
  rcases a with _ | ⟨x, xs⟩
  · rcases s with _ | ⟨c, cs⟩ <;> simp [goReplace1, List.isPrefixOf]
  · have hpre : (x :: xs).isPrefixOf (x :: (xs ++ s)) = true := by
      rw [List.isPrefixOf_iff_prefix]
      exact ⟨s, rfl⟩
    have hgoal : goReplace1 (x :: (xs ++ s)) (x :: xs) b =
        if (x :: xs).isPrefixOf (x :: (xs ++ s)) then
          b ++ (x :: (xs ++ s)).drop (x :: xs).length
        else x :: goReplace1 (xs ++ s) (x :: xs) b := rfl
    have hdrop : (x :: (xs ++ s)).drop (x :: xs).length = s := by
      rw [← List.cons_append, List.drop_left]
    rw [List.cons_append, hgoal, if_pos hpre, hdrop]

/-- C5 counterexample: with reference `"ba"`, old root `"a"` and new
root `"b"`, the substitution used by `RestoreImages` (first-occurrence
replacement) does not round-trip: the result is `"ab"`, not `"ba"`. -/
theorem c5_roundtrip_cex :
    stringsReplaceOnce (stringsReplaceOnce "ba" "a" "b") "b" "a" = "ab" ∧
      ("ab" : String) ≠ "ba" := by
  constructor
  · rfl
  · decide

/-- C5 (amended): the round-trip holds for every reference that the old
root path is a prefix of (the intended shape of a registry image
reference): substituting old root `O` by new root `N` and then `N` back
by `O` recovers the reference exactly. -/
theorem c5_roundtrip_on_root (O N : String) (rest : List Char) :
    stringsReplaceOnce (stringsReplaceOnce ⟨O.data ++ rest⟩ O N) N O =
      ⟨O.data ++ rest⟩ := by
  simp [stringsReplaceOnce, goReplace1_cancel]

end Migraptor

namespace Migraptor

/-! ## Dry-run / real-run backup refinement (claim C10) -/

/-- When every pull succeeds, the pull loop computes the same reference
list in dry-run and in a real run. -/
theorem backupPulls_fst_dry_eq (env : Env) (h : ∀ r, env.pullOk r = true) :
    ∀ l : List ImageInfo, (backupPulls env true l).1 = (backupPulls env false l).1 := by
  intro l
  induction l with
  | nil => rfl
  | cons img rest ih =>
    rcases ht : backupPulls env true rest with ⟨o₁, tr₁⟩
    rcases hf : backupPulls env false rest with ⟨o₂, tr₂⟩
    rw [ht, hf] at ih
    replace ih : o₁ = o₂ := ih
    simp only [backupPulls, ht, hf, h img.location, if_true, Bool.false_eq_true,
      if_false]
    rw [ih]

/-- When every pull succeeds, the repository loop of the backup computes
the same reference list in dry-run and in a real run. -/
theorem backupRepos_fst_dry_eq (env : Env) (pid : Nat) (tags : List String)
    (h : ∀ r, env.pullOk r = true) :
    ∀ l : List RegistryRepository,
      (backupRepos env true pid tags l).1 = (backupRepos env false pid tags l).1 := by
  intro l
  induction l with
  | nil => rfl
  | cons repo rest ih =>
    rcases hg : GetImages env pid repo.id tags with _ | images
    · simpa [backupRepos, hg] using ih
    · by_cases he : images.isEmpty
      · simpa [backupRepos, hg, he] using ih
      · have hpe := backupPulls_fst_dry_eq env h images
        rcases hpt : backupPulls env true images with ⟨o₁, tr₁⟩
        rcases hpf : backupPulls env false images with ⟨o₂, tr₂⟩
        rw [hpt, hpf] at hpe
        replace hpe : o₁ = o₂ := hpe
        rcases hrt : backupRepos env true pid tags rest with ⟨p₁, sr₁⟩
        rcases hrf : backupRepos env false pid tags rest with ⟨p₂, sr₂⟩
        rw [hrt, hrf] at ih
        replace ih : p₁ = p₂ := ih
        simp only [backupRepos, hg, he, hpt, hpf, hrt, hrf]
        rcases hc : o₂ with _ | refs <;> rw [hpe, hc] <;> simp [ih]

/-- C10: for every project and tag filter, `BackupImages` returns the
same result (reference list and repository list) in dry-run mode as in
a real run in which every pull succeeds: each retained tag's location
is recorded whether or not the pull is executed. -/
theorem c10_backup_dryrun_refines_real (env : Env) (p : ProjectInfo)
    (tags : List String) (h : ∀ r, env.pullOk r = true) :
    (BackupImages env true p tags).1 = (BackupImages env false p tags).1 := by
  rcases hl : env.listRegistryRepositories p.id with _ | repos
  · simp [BackupImages, hl]
  · by_cases he : repos.isEmpty
    · simp [BackupImages, hl, he]
    · have hre := backupRepos_fst_dry_eq env p.id tags h repos
      rcases hrt : backupRepos env true p.id tags repos with ⟨o₁, tr₁⟩
      rcases hrf : backupRepos env false p.id tags repos with ⟨o₂, tr₂⟩
      rw [hrt, hrf] at hre
      replace hre : o₁ = o₂ := hre
      simp only [BackupImages, hl, he, hrt, hrf]
      rcases hc : o₂ with _ | refs <;> rw [hre, hc] <;> simp

end Migraptor

namespace Migraptor

/-! ## Trace structure of the backup engine -/

/-- Dry-run pull loop: records every location, issues no calls. -/
theorem backupPulls_dry (env : Env) :
    ∀ l : List ImageInfo, backupPulls env true l = (some (l.map ImageInfo.location), []) := by
  intro l
  induction l with
  | nil => rfl
  | cons img rest ih => simp [backupPulls, ih]

/-- A successful real-run pull loop pulled every image successfully, in
order, recording each retained image's location. -/
theorem backupPulls_success (env : Env) :
    ∀ (l : List ImageInfo) (refs : List String) (tr : List Event),
      backupPulls env false l = (some refs, tr) →
      refs = l.map ImageInfo.location ∧
        tr = l.map (fun i => Event.pullImage i.location) ∧
        ∀ i ∈ l, env.pullOk i.location = true := by
  intro l
  induction l with
  | nil => intro refs tr h; simp [backupPulls] at h; simp_all
  | cons img rest ih =>
    intro refs tr h
    by_cases hp : env.pullOk img.location = true
    · rcases hr : backupPulls env false rest with ⟨o, tr'⟩
      simp only [backupPulls, hp, if_true, hr, Bool.false_eq_true, if_false] at h
      rcases o with _ | refs'
      · simp at h
      · simp only [Option.map_some', Prod.mk.injEq, Option.some.injEq] at h
        obtain ⟨h1, h2⟩ := h
        obtain ⟨e1, e2, e3⟩ := ih refs' tr' hr
        subst h1 h2 e1 e2
        refine ⟨rfl, rfl, ?_⟩
        intro i hi
        rcases List.mem_cons.mp hi with hi | hi
        · subst hi; exact hp
        · exact e3 i hi
    · simp [backupPulls, hp] at h

end Migraptor

namespace Migraptor

/-- Every event the pull loop emits is an image pull. -/
theorem backupPulls_events (env : Env) (d : Bool) :
    ∀ (l : List ImageInfo) (e : Event), e ∈ (backupPulls env d l).2 → e.isPull = true := by
  intro l
  induction l with
  | nil => intro e he; simp [backupPulls] at he
  | cons img rest ih =>
    intro e he
    rcases hr : backupPulls env d rest with ⟨o, tr⟩
    cases d with
    | true =>
      simp only [backupPulls, if_true, hr] at he
      exact ih e (by rw [hr]; exact he)
    | false =>
      by_cases hp : env.pullOk img.location = true
      · simp only [backupPulls, Bool.false_eq_true, if_false, hp, if_true, hr,
          List.mem_cons] at he
        rcases he with he | he
        · subst he; rfl
        · exact ih e (by rw [hr]; exact he)
      · simp only [backupPulls, Bool.false_eq_true, if_false, hp, List.mem_cons,
          List.not_mem_nil, or_false] at he
        subst he; rfl

/-- Every event the backup repository loop emits is an image pull. -/
theorem backupRepos_events (env : Env) (d : Bool) (pid : Nat) (tags : List String) :
    ∀ (rs : List RegistryRepository) (e : Event),
      e ∈ (backupRepos env d pid tags rs).2 → e.isPull = true := by
  intro rs
  induction rs with
  | nil => intro e he; simp [backupRepos] at he
  | cons repo rest ih =>
    intro e he
    rcases hg : GetImages env pid repo.id tags with _ | images
    · simp only [backupRepos, hg] at he
      exact ih e he
    · by_cases hemp : images.isEmpty = true
      · simp only [backupRepos, hg, hemp, if_true] at he
        exact ih e he
      · rcases hp : backupPulls env d images with ⟨o, tr⟩
        rcases o with _ | prefs
        · simp only [backupRepos, hg, hemp, Bool.false_eq_true, if_false, hp] at he
          exact backupPulls_events env d images e (by rw [hp]; exact he)
        · rcases hrr : backupRepos env d pid tags rest with ⟨o2, tr2⟩
          simp only [backupRepos, hg, hemp, Bool.false_eq_true, if_false, hp, hrr,
            List.mem_append] at he
          rcases he with he | he
          · exact backupPulls_events env d images e (by rw [hp]; exact he)
          · exact ih e (by rw [hrr]; exact he)

/-- Every event `BackupImages` emits is an image pull. -/
theorem BackupImages_events (env : Env) (d : Bool) (p : ProjectInfo)
    (tags : List String) :
    ∀ e ∈ (BackupImages env d p tags).2, e.isPull = true := by
  intro e he
  rcases hl : env.listRegistryRepositories p.id with _ | repos
  · simp [BackupImages, hl] at he
  · by_cases hemp : repos.isEmpty = true
    · simp [BackupImages, hl, hemp] at he
    · rcases hr : backupRepos env d p.id tags repos with ⟨o, tr⟩
      rcases o with _ | refs <;>
        simp only [BackupImages, hl, hemp, Bool.false_eq_true, if_false, hr] at he <;>
        exact backupRepos_events env d p.id tags repos e (by rw [hr]; exact he)

/-- The dry-run backup repository loop issues no calls. -/
theorem backupRepos_dry_trace (env : Env) (pid : Nat) (tags : List String) :
    ∀ rs : List RegistryRepository, (backupRepos env true pid tags rs).2 = [] := by
  intro rs
  induction rs with
  | nil => rfl
  | cons repo rest ih =>
    rcases hg : GetImages env pid repo.id tags with _ | images
    · simpa [backupRepos, hg] using ih
    · by_cases hemp : images.isEmpty = true
      · simpa [backupRepos, hg, hemp] using ih
      · rcases hrr : backupRepos env true pid tags rest with ⟨o2, tr2⟩
        rw [hrr] at ih
        simp only at ih
        simp [backupRepos, hg, hemp, backupPulls_dry, hrr, ih]

/-- The dry-run `BackupImages` issues no calls. -/
theorem BackupImages_dry_trace (env : Env) (p : ProjectInfo) (tags : List String) :
    (BackupImages env true p tags).2 = [] := by
  rcases hl : env.listRegistryRepositories p.id with _ | repos
  · simp [BackupImages, hl]
  · by_cases hemp : repos.isEmpty = true
    · simp [BackupImages, hl, hemp]
    · have := backupRepos_dry_trace env p.id tags repos
      rcases hr : backupRepos env true p.id tags repos with ⟨o, tr⟩
      rw [hr] at this
      simp only at this
      rcases o with _ | refs <;> simp [BackupImages, hl, hemp, hr, this]

end Migraptor

namespace Migraptor

/-- A successful real-run backup over the repositories issued exactly
one successful pull per recorded reference, in order. -/
theorem backupRepos_success (env : Env) (pid : Nat) (tags : List String) :
    ∀ (rs : List RegistryRepository) (refs : List String) (tr : List Event),
      backupRepos env false pid tags rs = (some refs, tr) →
      tr = refs.map Event.pullImage ∧ ∀ r ∈ refs, env.pullOk r = true := by
  intro rs
  induction rs with
  | nil =>
    intro refs tr h
    simp only [backupRepos, Prod.mk.injEq, Option.some.injEq] at h
    obtain ⟨h1, h2⟩ := h
    subst h1 h2
    simp
  | cons repo rest ih =>
    intro refs tr h
    rcases hg : GetImages env pid repo.id tags with _ | images
    · rw [show backupRepos env false pid tags (repo :: rest)
          = backupRepos env false pid tags rest by simp [backupRepos, hg]] at h
      exact ih refs tr h
    · by_cases hemp : images.isEmpty = true
      · rw [show backupRepos env false pid tags (repo :: rest)
            = backupRepos env false pid tags rest by simp [backupRepos, hg, hemp]] at h
        exact ih refs tr h
      · rcases hp : backupPulls env false images with ⟨o, tr'⟩
        rcases o with _ | prefs
        · simp [backupRepos, hg, hemp, hp] at h
        · rcases hrr : backupRepos env false pid tags rest with ⟨o2, tr2⟩
          rcases o2 with _ | rrefs
          · simp [backupRepos, hg, hemp, hp, hrr] at h
          · simp only [backupRepos, hg, hemp, Bool.false_eq_true, if_false, hp, hrr,
              Option.map_some', Prod.mk.injEq, Option.some.injEq] at h
            obtain ⟨h1, h2⟩ := h
            subst h1 h2
            obtain ⟨p1, p2, p3⟩ := backupPulls_success env images prefs tr' hp
            obtain ⟨i1, i2⟩ := ih rrefs tr2 hrr
            constructor
            · rw [i1, p2, p1, List.map_append, List.map_map]
              rfl
            · intro r hr
              rcases List.mem_append.mp hr with hr | hr
              · rw [p1] at hr
                obtain ⟨i, hi, hloc⟩ := List.mem_map.mp hr
                rw [← hloc]
                exact p3 i hi
              · exact i2 r hr

/-- In a successful real-run backup, every image retained by the tag
filter for any of the project's repositories had its location recorded
in the backup reference list. -/
theorem backupRepos_mem (env : Env) (pid : Nat) (tags : List String) :
    ∀ (rs : List RegistryRepository) (refs : List String) (tr : List Event),
      backupRepos env false pid tags rs = (some refs, tr) →
      ∀ r ∈ rs, ∀ imgs, GetImages env pid r.id tags = some imgs →
        ∀ i ∈ imgs, i.location ∈ refs := by
  intro rs
  induction rs with
  | nil => intro refs tr _ r hr; simp at hr
  | cons repo rest ih =>
    intro refs tr h r hr imgs hgi i hi
    rcases hg : GetImages env pid repo.id tags with _ | images
    · rcases List.mem_cons.mp hr with hr | hr
      · subst hr; rw [hg] at hgi; cases hgi
      · rw [show backupRepos env false pid tags (repo :: rest)
            = backupRepos env false pid tags rest by simp [backupRepos, hg]] at h
        exact ih refs tr h r hr imgs hgi i hi
    · by_cases hemp : images.isEmpty = true
      · rcases List.mem_cons.mp hr with hr | hr
        · subst hr
          rw [hg] at hgi
          obtain rfl : images = imgs := Option.some.inj hgi
          rw [List.isEmpty_iff.mp hemp] at hi
          simp at hi
        · rw [show backupRepos env false pid tags (repo :: rest)
              = backupRepos env false pid tags rest by simp [backupRepos, hg, hemp]] at h
          exact ih refs tr h r hr imgs hgi i hi
      · rcases hp : backupPulls env false images with ⟨o, tr'⟩
        rcases o with _ | prefs
        · simp [backupRepos, hg, hemp, hp] at h
        · rcases hrr : backupRepos env false pid tags rest with ⟨o2, tr2⟩
          rcases o2 with _ | rrefs
          · simp [backupRepos, hg, hemp, hp, hrr] at h
          · simp only [backupRepos, hg, hemp, Bool.false_eq_true, if_false, hp, hrr,
              Option.map_some', Prod.mk.injEq, Option.some.injEq] at h
            obtain ⟨h1, h2⟩ := h
            subst h1
            rcases List.mem_cons.mp hr with hr | hr
            · subst hr
              rw [hg] at hgi
              obtain rfl : images = imgs := Option.some.inj hgi
              obtain ⟨p1, _, _⟩ := backupPulls_success env images prefs tr' hp
              refine List.mem_append_left _ ?_
              rw [p1]
              exact List.mem_map.mpr ⟨i, hi, rfl⟩
            · exact List.mem_append_right _ (ih rrefs tr2 hrr r hr imgs hgi i hi)

/-- Structure of a successful real-run `BackupImages`: the trace is
exactly one successful pull per recorded reference, and every retained
image of every listed repository is recorded. -/
theorem BackupImages_success_spec (env : Env) (p : ProjectInfo) (tags : List String)
    (refs : List String) (repos : List RegistryRepository) (tr : List Event)
    (h : BackupImages env false p tags = (some (refs, repos), tr)) :
    tr = refs.map Event.pullImage ∧ (∀ r ∈ refs, env.pullOk r = true) ∧
      ∀ rs, env.listRegistryRepositories p.id = some rs →
        ∀ r ∈ rs, ∀ imgs, GetImages env p.id r.id tags = some imgs →
          ∀ i ∈ imgs, i.location ∈ refs := by
  rcases hl : env.listRegistryRepositories p.id with _ | rs
  · simp [BackupImages, hl] at h
  · by_cases hemp : rs.isEmpty = true
    · simp only [BackupImages, hl, hemp, if_true, Prod.mk.injEq, Option.some.injEq] at h
      obtain ⟨⟨h1, h2⟩, h3⟩ := h
      subst h1 h2 h3
      refine ⟨by simp, by simp, ?_⟩
      intro rs' hrs' r hr
      obtain rfl : rs = rs' := Option.some.inj (hl ▸ hrs')
      rw [List.isEmpty_iff.mp hemp] at hr
      simp at hr
    · rcases hb : backupRepos env false p.id tags rs with ⟨o, tr'⟩
      rcases o with _ | refs'
      · simp [BackupImages, hl, hemp, hb] at h
      · simp only [BackupImages, hl, hemp, Bool.false_eq_true, if_false, hb,
          Prod.mk.injEq, Option.some.injEq] at h
        obtain ⟨⟨h1, h2⟩, h3⟩ := h
        subst h1 h2 h3
        obtain ⟨s1, s2⟩ := backupRepos_success env p.id tags rs refs' tr' hb
        refine ⟨s1, s2, ?_⟩
        intro rs' hrs' r hr imgs hgi i hi
        have hrr : rs' = rs := (Option.some.inj hrs').symm
        rw [hrr] at hr
        exact backupRepos_mem env p.id tags rs refs' tr' hb r hr imgs hgi i hi

end Migraptor

namespace Migraptor

/-- C8: in any successful (non-dry-run) backup-then-evict sequence for a
project, the trace splits into the pull calls followed by the
repository-delete calls: every delete call is issued after every pull;
every pull that happened succeeded; every image retained by the tag
filter for any listed repository was pulled before any delete; and if
some repository retained at least one image, the recorded backup
reference list is non-empty. -/
theorem c8_backup_before_delete (env : Env) (p : ProjectInfo) (tags : List String)
    (refs : List String) (tr : List Event)
    (h : backupThenEvict env false p tags = (some refs, tr)) :
    ∃ tr1 tr2, tr = tr1 ++ tr2 ∧
      (∀ e ∈ tr1, e.isPull = true) ∧
      (∀ e ∈ tr2, e.isRegDelete = true) ∧
      (∀ r, Event.pullImage r ∈ tr1 → env.pullOk r = true) ∧
      (∀ rs, env.listRegistryRepositories p.id = some rs →
        ∀ r ∈ rs, ∀ imgs, GetImages env p.id r.id tags = some imgs →
          (∀ i ∈ imgs, Event.pullImage i.location ∈ tr1) ∧ (imgs ≠ [] → refs ≠ [])) := by
  rcases hb : BackupImages env false p tags with ⟨o, trB⟩
  rcases o with _ | ⟨refs', repos⟩
  · simp [backupThenEvict, hb] at h
  · simp only [backupThenEvict, hb, Prod.mk.injEq, Option.some.injEq] at h
    obtain ⟨h1, h2⟩ := h
    subst h1
    subst h2
    obtain ⟨s1, s2, s3⟩ := BackupImages_success_spec env p tags refs' repos trB hb
    refine ⟨trB, DeleteRegistries false p.id repos, rfl, ?_, ?_, ?_, ?_⟩
    · intro e he
      rw [s1] at he
      obtain ⟨r, _, rfl⟩ := List.mem_map.mp he
      rfl
    · intro e he
      simp only [DeleteRegistries, Bool.false_eq_true, if_false] at he
      obtain ⟨r, _, rfl⟩ := List.mem_map.mp he
      rfl
    · intro r hr
      rw [s1] at hr
      obtain ⟨r', hr', he⟩ := List.mem_map.mp hr
      injection he with he'
      rw [← he']
      exact s2 r' hr'
    · intro rs hrs r hr imgs hgi
      constructor
      · intro i hi
        rw [s1]
        exact List.mem_map.mpr ⟨i.location, s3 rs hrs r hr imgs hgi i hi, rfl⟩
      · intro hne hrefs
        obtain ⟨i, hi⟩ := List.exists_mem_of_ne_nil imgs hne
        have hloc := s3 rs hrs r hr imgs hgi i hi
        rw [hrefs] at hloc
        simp at hloc

/-- The unarchive step emits at most the unarchive call for the project. -/
theorem unarchiveStep_events (env : Env) (cfg : Config) (p : ProjectInfo) :
    ∀ e ∈ (unarchiveStep env cfg p).2, e = Event.unarchiveProject p.id := by
  intro e he
  by_cases hA : p.archived = true
  · by_cases hD : cfg.dryRun = true
    · simp [unarchiveStep, hA, hD] at he
    · rcases h : env.unarchiveResp p.id with _ | code <;>
        simp [unarchiveStep, hA, hD, h] at he <;> exact he
  · simp [unarchiveStep, hA] at he

/-- The dry-run unarchive step issues no call. -/
theorem unarchiveStep_dry_trace (env : Env) (cfg : Config) (p : ProjectInfo)
    (h : cfg.dryRun = true) : (unarchiveStep env cfg p).2 = [] := by
  by_cases hA : p.archived = true <;> simp [unarchiveStep, hA, h]

/-- A `BackupImages` call that returned without error only issued
successful pulls (in dry-run it issued none at all). -/
theorem BackupImages_success_pullOk (env : Env) (d : Bool) (p : ProjectInfo)
    (tags : List String) (x : List String × List RegistryRepository)
    (tr : List Event) (h : BackupImages env d p tags = (some x, tr)) :
    ∀ r, Event.pullImage r ∈ tr → env.pullOk r = true := by
  cases d with
  | true =>
    have hd := BackupImages_dry_trace env p tags
    rw [h] at hd
    simp only at hd
    subst hd
    intro r hr
    simp at hr
  | false =>
    rcases x with ⟨refs, repos⟩
    obtain ⟨s1, s2, _⟩ := BackupImages_success_spec env p tags refs repos tr h
    intro r hr
    rw [s1] at hr
    obtain ⟨r', hr', he⟩ := List.mem_map.mp hr
    injection he with he'
    rw [← he']
    exact s2 r' hr'

end Migraptor

namespace Migraptor

/-- Every event the backup loop emits is an image pull or an archival
(unarchive) call — never a transfer, restore or delete call. -/
theorem backupPhase_events (env : Env) (cfg : Config) :
    ∀ (ps : List ProjectInfo) (e : Event), e ∈ (backupPhase env cfg ps).2 →
      e.isPull = true ∨ e.isArchival = true := by
  intro ps
  induction ps with
  | nil => intro e he; simp [backupPhase] at he
  | cons p rest ih =>
    intro e he
    by_cases hs : ShouldMigrateProject p cfg.projectsList cfg.keepParent = true
    · rcases hu : unarchiveStep env cfg p with ⟨ok, tr0⟩
      have hu0 : ∀ e ∈ tr0, e = Event.unarchiveProject p.id := by
        intro e' he'
        exact unarchiveStep_events env cfg p e' (by rw [hu]; exact he')
      cases ok with
      | false =>
        rcases hb : backupPhase env cfg rest with ⟨o, tr⟩
        simp only [backupPhase, hs, if_true, hu, hb, List.mem_append] at he
        rcases he with he | he
        · right; rw [hu0 e he]; rfl
        · exact ih e (by rw [hb]; exact he)
      | true =>
        by_cases hreg : p.containerRegistryEnabled = true
        · rcases hB : BackupImages env cfg.dryRun p cfg.tagsList with ⟨ob, tr1⟩
          rcases ob with _ | x
          · simp only [backupPhase, hs, if_true, hu, hreg, hB, List.mem_append] at he
            rcases he with he | he
            · right; rw [hu0 e he]; rfl
            · left
              exact BackupImages_events env cfg.dryRun p cfg.tagsList e
                (by rw [hB]; exact he)
          · rcases x with ⟨refs, reps⟩
            rcases hb : backupPhase env cfg rest with ⟨o, tr⟩
            simp only [backupPhase, hs, if_true, hu, hreg, hB, hb,
              List.mem_append] at he
            rcases he with (he | he) | he
            · right; rw [hu0 e he]; rfl
            · left
              exact BackupImages_events env cfg.dryRun p cfg.tagsList e
                (by rw [hB]; exact he)
            · exact ih e (by rw [hb]; exact he)
        · rcases hb : backupPhase env cfg rest with ⟨o, tr⟩
          have hreg' : p.containerRegistryEnabled = false := by simpa using hreg
          simp only [backupPhase, hs, if_true, hu, hreg', Bool.false_eq_true,
            if_false, hb, List.mem_append] at he
          rcases he with he | he
          · right; rw [hu0 e he]; rfl
          · exact ih e (by rw [hb]; exact he)
    · simp only [backupPhase, hs] at he
      exact ih e he

/-- If the backup loop completed without a fatal error, every pull call
in its trace succeeded. -/
theorem backupPhase_success_pullOk (env : Env) (cfg : Config) :
    ∀ (ps : List ProjectInfo) (m : List (Nat × List String)) (tr : List Event),
      backupPhase env cfg ps = (some m, tr) →
      ∀ r, Event.pullImage r ∈ tr → env.pullOk r = true := by
  intro ps
  induction ps with
  | nil => intro m tr h r hr; simp only [backupPhase, Prod.mk.injEq] at h; rw [← h.2] at hr; simp at hr
  | cons p rest ih =>
    intro m tr h r hr
    by_cases hs : ShouldMigrateProject p cfg.projectsList cfg.keepParent = true
    · rcases hu : unarchiveStep env cfg p with ⟨ok, tr0⟩
      have hu0 : ∀ e ∈ tr0, e = Event.unarchiveProject p.id := by
        intro e' he'
        exact unarchiveStep_events env cfg p e' (by rw [hu]; exact he')
      cases ok with
      | false =>
        rcases hb : backupPhase env cfg rest with ⟨o, tr'⟩
        simp only [backupPhase, hs, if_true, hu, hb, Prod.mk.injEq] at h
        rw [← h.2] at hr
        rcases List.mem_append.mp hr with hr | hr
        · cases hu0 _ hr
        · exact ih m tr' (by rw [hb, ← h.1]) r hr
      | true =>
        by_cases hreg : p.containerRegistryEnabled = true
        · rcases hB : BackupImages env cfg.dryRun p cfg.tagsList with ⟨ob, tr1⟩
          rcases ob with _ | x
          · simp only [backupPhase, hs, if_true, hu, hreg, hB, Prod.mk.injEq] at h
            exact absurd h.1 (by simp)
          · rcases hb : backupPhase env cfg rest with ⟨o, tr'⟩
            rcases o with _ | m'
            · simp only [backupPhase, hs, if_true, hu, hreg, hB, hb,
                Prod.mk.injEq, Option.map_none'] at h
              exact absurd h.1 (by simp)
            · simp only [backupPhase, hs, if_true, hu, hreg, hB, hb,
                Prod.mk.injEq, Option.map_some'] at h
              rw [← h.2] at hr
              rcases List.mem_append.mp hr with hr | hr
              · rcases List.mem_append.mp hr with hr | hr
                · cases hu0 _ hr
                · exact BackupImages_success_pullOk env cfg.dryRun p cfg.tagsList
                    x tr1 hB r hr
              · exact ih m' tr' (by rw [hb]) r hr
        · rcases hb : backupPhase env cfg rest with ⟨o, tr'⟩
          have hreg' : p.containerRegistryEnabled = false := by simpa using hreg
          simp only [backupPhase, hs, if_true, hu, hreg', Bool.false_eq_true,
            if_false, hb, Prod.mk.injEq] at h
          rw [← h.2] at hr
          rcases List.mem_append.mp hr with hr | hr
          · cases hu0 _ hr
          · exact ih m tr' (by rw [hb, ← h.1]) r hr
    · simp only [backupPhase, hs] at h
      exact ih m tr h r hr

/-- The dry-run backup loop issues no calls at all. -/
theorem backupPhase_dry_trace (env : Env) (cfg : Config) (hd : cfg.dryRun = true) :
    ∀ ps : List ProjectInfo, (backupPhase env cfg ps).2 = [] := by
  intro ps
  induction ps with
  | nil => rfl
  | cons p rest ih =>
    by_cases hs : ShouldMigrateProject p cfg.projectsList cfg.keepParent = true
    · rcases hu : unarchiveStep env cfg p with ⟨ok, tr0⟩
      have hu0 : tr0 = [] := by
        have := unarchiveStep_dry_trace env cfg p hd
        rw [hu] at this
        exact this
      subst hu0
      cases ok with
      | false =>
        rcases hb : backupPhase env cfg rest with ⟨o, tr⟩
        rw [hb] at ih
        simp only at ih
        simp [backupPhase, hs, hu, hb, ih]
      | true =>
        by_cases hreg : p.containerRegistryEnabled = true
        · rcases hB : BackupImages env cfg.dryRun p cfg.tagsList with ⟨ob, tr1⟩
          have htr1 : tr1 = [] := by
            have h2 := BackupImages_dry_trace env p cfg.tagsList
            rw [← hd] at h2
            rw [hB] at h2
            exact h2
          subst htr1
          rcases hb : backupPhase env cfg rest with ⟨o, tr⟩
          rw [hb] at ih
          simp only at ih
          rcases ob with _ | x
          · simp [backupPhase, hs, hu, hB, hreg]
          · rcases x with ⟨refs, reps⟩
            simp [backupPhase, hs, hu, hB, hreg, hb, ih]
        · rcases hb : backupPhase env cfg rest with ⟨o, tr⟩
          rw [hb] at ih
          simp only at ih
          simp [backupPhase, hs, hu, hb, hreg, ih]
    · simp [backupPhase, hs, ih]

end Migraptor

namespace Migraptor

/-- The group-transfer decision only ever issues a group transfer or a
group creation call. -/
theorem transferGroupPhase_events (env : Env) (cfg : Config)
    (gf ng : Group) (np : String) :
    ∀ e ∈ (transferGroupPhase env cfg gf ng np).2.2,
      e.isGroupTransfer = true ∨ e.isGroupCreate = true := by
  intro e he
  by_cases hk : cfg.keepParent = true
  · by_cases hp : cfg.projectsList.isEmpty = true
    · by_cases hd : cfg.dryRun = true
      · simp [transferGroupPhase, hk, hp, hd] at he
      · rcases ht : env.transferGroupResp gf.id ng.id with _ | code <;>
          simp [transferGroupPhase, hk, hp, hd, ht] at he <;>
          (subst he; exact Or.inl rfl)
    · rcases hsg : env.searchGroup (np ++ "/" ++ lastSegment gf.path) with _ | g
      · rcases hc : env.createGroup (lastSegment gf.path) ng.id with _ | g <;>
          simp [transferGroupPhase, hk, hp, hsg, hc] at he <;>
          (subst he; exact Or.inr rfl)
      · simp [transferGroupPhase, hk, hp, hsg] at he
  · simp [transferGroupPhase, hk] at he

/-- In dry-run, the group-transfer decision issues at most a group
creation call (the whole-group transfer itself is skipped, but the
locate-or-create path is not dry-run guarded in the source). -/
theorem transferGroupPhase_dry_events (env : Env) (cfg : Config)
    (gf ng : Group) (np : String) (hd : cfg.dryRun = true) :
    ∀ e ∈ (transferGroupPhase env cfg gf ng np).2.2, e.isGroupCreate = true := by
  intro e he
  by_cases hk : cfg.keepParent = true
  · by_cases hp : cfg.projectsList.isEmpty = true
    · simp [transferGroupPhase, hk, hp, hd] at he
    · rcases hsg : env.searchGroup (np ++ "/" ++ lastSegment gf.path) with _ | g
      · rcases hc : env.createGroup (lastSegment gf.path) ng.id with _ | g <;>
          simp [transferGroupPhase, hk, hp, hsg, hc] at he <;>
          (subst he; rfl)
      · simp [transferGroupPhase, hk, hp, hsg] at he
  · simp [transferGroupPhase, hk] at he

/-- Every event of one image's restore step is a tag or push call. -/
theorem restoreOneImage_events (env : Env) (d : Bool) (img ofp np : String)
    (kp : Bool) :
    ∀ e ∈ restoreOneImage env d img ofp np kp, e.isRestoreCall = true := by
  intro e he
  by_cases hd : d = true
  · simp [restoreOneImage, hd] at he
  · by_cases ht : env.tagOk (trimQuotes img)
        (stringsReplaceOnce (trimQuotes img) (trimQuotes ofp) np) = true
    · simp [restoreOneImage, hd, ht] at he
      rcases he with he | he <;> (subst he; rfl)
    · simp [restoreOneImage, hd, ht] at he
      subst he
      rfl

/-- The dry-run image restore step issues no calls. -/
theorem restoreOneImage_dry (env : Env) (img ofp np : String) (kp : Bool) :
    restoreOneImage env true img ofp np kp = [] := by
  simp [restoreOneImage]

/-- Every event of `RestoreImages` is a tag or push call. -/
theorem RestoreImages_events (env : Env) (d : Bool) (l : List String)
    (ofp np : String) (kp : Bool) :
    ∀ e ∈ RestoreImages env d l ofp np kp, e.isRestoreCall = true := by
  intro e he
  by_cases hl : l.isEmpty = true
  · simp [RestoreImages, hl] at he
  · simp only [RestoreImages, hl, Bool.false_eq_true, if_false,
      List.mem_flatMap] at he
    obtain ⟨img, _, hm⟩ := he
    exact restoreOneImage_events env d img ofp np kp e hm

/-- The dry-run `RestoreImages` issues no calls. -/
theorem RestoreImages_dry_trace (env : Env) (l : List String)
    (ofp np : String) (kp : Bool) : RestoreImages env true l ofp np kp = [] := by
  by_cases hl : l.isEmpty = true
  · simp [RestoreImages, hl]
  · simp [RestoreImages, hl, restoreOneImage_dry]

/-- The re-archive step emits at most the archive call for the project. -/
theorem archiveStep_events (cfg : Config) (p : ProjectInfo) :
    ∀ e ∈ archiveStep cfg p, e = Event.archiveProject p.id := by
  intro e he
  by_cases hA : p.archived = true
  · by_cases hd : cfg.dryRun = true <;> simp [archiveStep, hA, hd] at he
    exact he
  · simp [archiveStep, hA] at he

/-- The dry-run re-archive step issues no call. -/
theorem archiveStep_dry (cfg : Config) (p : ProjectInfo) (hd : cfg.dryRun = true) :
    archiveStep cfg p = [] := by
  by_cases hA : p.archived = true <;> simp [archiveStep, hA, hd]

/-- Every event of a project's post-transfer restore processing is a tag
or push call or the project's re-archive call. -/
theorem restoreTail_events (env : Env) (cfg : Config)
    (m : List (Nat × List String)) (ofp op np : String) (p : ProjectInfo) :
    ∀ e ∈ restoreTail env cfg m ofp op np p,
      e.isRestoreCall = true ∨ e = Event.archiveProject p.id := by
  intro e he
  rcases List.mem_append.mp he with he | he
  · left
    rcases hm : m.lookup p.id with _ | refs
    · simp [hm] at he
    · by_cases hr : refs.isEmpty = true
      · simp [hm, hr] at he
      · simp only [hm, hr, Bool.false_eq_true, if_false] at he
        exact RestoreImages_events env cfg.dryRun refs ofp
          (if cfg.keepParent then np ++ "/" ++ op else np) cfg.keepParent e he
  · right
    exact archiveStep_events cfg p e he

/-- The dry-run post-transfer restore processing issues no calls. -/
theorem restoreTail_dry (env : Env) (cfg : Config)
    (m : List (Nat × List String)) (ofp op np : String) (p : ProjectInfo)
    (hd : cfg.dryRun = true) : restoreTail env cfg m ofp op np p = [] := by
  unfold restoreTail
  rw [archiveStep_dry cfg p hd]
  rcases hm : m.lookup p.id with _ | refs
  · simp
  · by_cases hr : refs.isEmpty = true
    · simp [hr]
    · have hri : RestoreImages env cfg.dryRun refs ofp
          (if cfg.keepParent = true then np ++ "/" ++ op else np) cfg.keepParent = [] := by
        rw [hd]
        exact RestoreImages_dry_trace env refs ofp _ cfg.keepParent
      simp [hr, hri]

end Migraptor

namespace Migraptor

/-- Each event of a project's restore processing is either that
project's transfer call or an event of its post-transfer tail. -/
theorem restoreProject_events (env : Env) (cfg : Config) (tgid : Nat)
    (m : List (Nat × List String)) (ofp op np : String) (p : ProjectInfo) :
    ∀ e ∈ restoreProject env cfg tgid m ofp op np p,
      e = Event.transferProject p.id tgid ∨
        e ∈ restoreTail env cfg m ofp op np p := by
  intro e he
  by_cases hc : (!cfg.keepParent || !cfg.projectsList.isEmpty) = true
  · by_cases hd : cfg.dryRun = true
    · right
      simpa [restoreProject, hc, hd] using he
    · rcases ht : env.transferProjectResp p.id tgid with _ | code
      · left
        simp [restoreProject, hc, hd, ht] at he
        exact he
      · simp [restoreProject, hc, hd, ht] at he
        rcases he with he | he
        · left; exact he
        · right; exact he
  · right
    simpa [restoreProject, hc] using he

/-- The events of the restore loop come from the per-project processing
of the qualifying projects. -/
theorem restorePhase_events (env : Env) (cfg : Config) (tgid : Nat)
    (m : List (Nat × List String)) (ofp op np : String) :
    ∀ (ps : List ProjectInfo) (e : Event),
      e ∈ restorePhase env cfg tgid m ofp op np ps →
      ∃ p ∈ ps, ShouldMigrateProject p cfg.projectsList cfg.keepParent = true ∧
        e ∈ restoreProject env cfg tgid m ofp op np p := by
  intro ps
  induction ps with
  | nil => intro e he; simp [restorePhase] at he
  | cons p rest ih =>
    intro e he
    simp only [restorePhase, List.mem_append] at he
    rcases he with he | he
    · by_cases hs : ShouldMigrateProject p cfg.projectsList cfg.keepParent = true
      · rw [if_pos hs] at he
        exact ⟨p, List.mem_cons_self p rest, hs, he⟩
      · rw [if_neg hs] at he
        simp at he
    · obtain ⟨q, hq, hs, hm⟩ := ih e he
      exact ⟨q, List.mem_cons_of_mem p hq, hs, hm⟩

/-- The dry-run restore loop issues no calls. -/
theorem restorePhase_dry_trace (env : Env) (cfg : Config) (tgid : Nat)
    (m : List (Nat × List String)) (ofp op np : String) (hd : cfg.dryRun = true) :
    ∀ ps : List ProjectInfo, restorePhase env cfg tgid m ofp op np ps = [] := by
  intro ps
  induction ps with
  | nil => rfl
  | cons p rest ih =>
    have hrp : restoreProject env cfg tgid m ofp op np p = [] := by
      by_cases hc : (!cfg.keepParent || !cfg.projectsList.isEmpty) = true
      · simp [restoreProject, hc, hd, restoreTail_dry env cfg m ofp op np p hd]
      · simp [restoreProject, hc, restoreTail_dry env cfg m ofp op np p hd]
    simp [restorePhase, hrp, ih]

/-- When hierarchy is flattened or a project filter is present, every
qualifying project's transfer call is issued by the restore loop
(in a real run). -/
theorem restorePhase_transfer_mem (env : Env) (cfg : Config) (tgid : Nat)
    (m : List (Nat × List String)) (ofp op np : String)
    (hd : cfg.dryRun = false)
    (hc : (!cfg.keepParent || !cfg.projectsList.isEmpty) = true) :
    ∀ (ps : List ProjectInfo) (p : ProjectInfo), p ∈ ps →
      ShouldMigrateProject p cfg.projectsList cfg.keepParent = true →
      Event.transferProject p.id tgid ∈ restorePhase env cfg tgid m ofp op np ps := by
  intro ps
  induction ps with
  | nil => intro p hp _; simp at hp
  | cons q rest ih =>
    intro p hp hs
    rcases List.mem_cons.mp hp with hp | hp
    · subst hp
      refine List.mem_append_left _ ?_
      rw [if_pos hs]
      rcases ht : env.transferProjectResp p.id tgid with _ | code
      · simp [restoreProject, hc, hd, ht]
      · simp [restoreProject, hc, hd, ht]
    · exact List.mem_append_right _ (ih p hp hs)

/-- A project-transfer event in the restore loop always targets the
designated destination group and belongs to a qualifying project. -/
theorem restorePhase_transfer_only (env : Env) (cfg : Config) (tgid : Nat)
    (m : List (Nat × List String)) (ofp op np : String) :
    ∀ (ps : List ProjectInfo) (pid g : Nat),
      Event.transferProject pid g ∈ restorePhase env cfg tgid m ofp op np ps →
      g = tgid ∧ ∃ p ∈ ps, p.id = pid ∧
        ShouldMigrateProject p cfg.projectsList cfg.keepParent = true := by
  intro ps pid g he
  obtain ⟨p, hp, hs, hm⟩ := restorePhase_events env cfg tgid m ofp op np ps _ he
  rcases restoreProject_events env cfg tgid m ofp op np p _ hm with h | h
  · injection h with h1 h2
    exact ⟨h2, p, hp, h1.symm, hs⟩
  · rcases restoreTail_events env cfg m ofp op np p _ h with h | h
    · simp [Event.isRestoreCall] at h
    · simp at h

end Migraptor

namespace Migraptor

/-- A pull event is not a transfer, restore-side or delete call. -/
theorem pull_kind_excl (e : Event) (h : e.isPull = true) :
    e.isTransferCall = false ∧ e.isRestoreCall = false ∧ e.isRegDelete = false := by
  cases e <;> simp_all [Event.isPull, Event.isTransferCall, Event.isRestoreCall,
    Event.isRegDelete]

/-- An archival event is not a transfer, restore-side or delete call. -/
theorem archival_kind_excl (e : Event) (h : e.isArchival = true) :
    e.isTransferCall = false ∧ e.isRestoreCall = false ∧ e.isRegDelete = false := by
  cases e <;> simp_all [Event.isArchival, Event.isTransferCall, Event.isRestoreCall,
    Event.isRegDelete]

/-- The group-transfer decision never pulls an image. -/
theorem transferGroupPhase_no_pull (env : Env) (cfg : Config) (gf ng : Group)
    (np : String) (r : String)
    (h : Event.pullImage r ∈ (transferGroupPhase env cfg gf ng np).2.2) : False := by
  rcases transferGroupPhase_events env cfg gf ng np _ h with he | he <;>
    simp [Event.isGroupTransfer, Event.isGroupCreate] at he

/-- The restore loop never pulls an image. -/
theorem restorePhase_no_pull (env : Env) (cfg : Config) (tgid : Nat)
    (m : List (Nat × List String)) (ofp op np : String)
    (ps : List ProjectInfo) (r : String)
    (h : Event.pullImage r ∈ restorePhase env cfg tgid m ofp op np ps) : False := by
  obtain ⟨p, _, _, hm⟩ := restorePhase_events env cfg tgid m ofp op np ps _ h
  rcases restoreProject_events env cfg tgid m ofp op np p _ hm with he | he
  · simp at he
  · rcases restoreTail_events env cfg m ofp op np p _ he with he | he
    · simp [Event.isRestoreCall] at he
    · simp at he

/-- Case analysis of the pipeline core on its phase outcomes. -/
theorem runCore_cases (env : Env) (cfg : Config) (gf ng : Group)
    (np : String) (ps : List ProjectInfo) :
    (∃ tr1, backupPhase env cfg ps = (none, tr1) ∧
      runCore env cfg gf ng np ps = ⟨some 99, tr1⟩) ∨
    (∃ m tr1, backupPhase env cfg ps = (some m, tr1) ∧
      runCore env cfg gf ng np ps = ⟨some 99, tr1⟩) ∨
    (∃ m tr1 g2 tr2, backupPhase env cfg ps = (some m, tr1) ∧
      transferGroupPhase env cfg gf ng np = (false, g2, tr2) ∧
      runCore env cfg gf ng np ps = ⟨some 99, tr1 ++ tr2⟩) ∨
    (∃ m tr1 g2 tr2, backupPhase env cfg ps = (some m, tr1) ∧
      transferGroupPhase env cfg gf ng np = (true, g2, tr2) ∧
      runCore env cfg gf ng np ps =
        ⟨none, tr1 ++ tr2 ++
          restorePhase env cfg g2.id m gf.fullPath gf.path np ps⟩) := by
  rcases hb : backupPhase env cfg ps with ⟨o, tr1⟩
  rcases o with _ | m
  · exact Or.inl ⟨tr1, rfl, by simp [runCore, hb]⟩
  · by_cases hck : (!m.isEmpty && !CheckIfRemainingImages env cfg.dryRun ps) = true
    · exact Or.inr (Or.inl ⟨m, tr1, rfl, by simp [runCore, hb, hck]⟩)
    · rcases ht : transferGroupPhase env cfg gf ng np with ⟨ok, g2, tr2⟩
      cases ok
      · exact Or.inr (Or.inr (Or.inl
          ⟨m, tr1, g2, tr2, rfl, rfl, by simp [runCore, hb, hck, ht]⟩))
      · exact Or.inr (Or.inr (Or.inr
          ⟨m, tr1, g2, tr2, rfl, rfl, by simp [runCore, hb, hck, ht]⟩))

/-- Case analysis of the whole pipeline on its discovery outcomes. -/
theorem runMigration_cases (env : Env) (cfg : Config) :
    (runMigration env cfg = ⟨some 321, []⟩) ∨
    (runMigration env cfg = ⟨some 99, []⟩) ∨
    (runMigration env cfg = ⟨some 1, []⟩) ∨
    ∃ gf ng ps,
      env.searchGroup cfg.oldGroupName = some gf ∧
      env.searchGroup (trimLeadingSlash cfg.newGroupName) = some ng ∧
      ListProjects env gf.id cfg.projectsList = some ps ∧
      ps.isEmpty = false ∧
      runMigration env cfg =
        runCore env cfg gf ng (trimLeadingSlash cfg.newGroupName)
          (ps ++ GetSubGroupsAndProjects env cfg.projectsList) := by
  rcases h1 : env.searchGroup cfg.oldGroupName with _ | gf
  · exact Or.inl (by simp [runMigration, h1])
  · rcases h2 : env.searchGroup (trimLeadingSlash cfg.newGroupName) with _ | ng
    · exact Or.inr (Or.inl (by simp [runMigration, h1, h2]))
    · rcases h3 : ListProjects env gf.id cfg.projectsList with _ | ps
      · exact Or.inr (Or.inr (Or.inl (by simp [runMigration, h1, h2, h3])))
      · by_cases h4 : ps.isEmpty = true
        · exact Or.inr (Or.inr (Or.inl (by simp [runMigration, h1, h2, h3, h4])))
        · exact Or.inr (Or.inr (Or.inr ⟨gf, ng, ps, rfl, rfl, h3,
            by simpa using h4, by simp [runMigration, h1, h2, h3, h4]⟩))

/-- C1: if pulling any retained image fails during the backup phase
(a pull call for a reference the Docker engine fails on appears in the
run's trace), the pipeline exits with code 99, and no group or project
transfer, no restore-side tag/push and no registry-delete call is ever
issued, for any project. -/
theorem c1_pull_failure_fatal (env : Env) (cfg : Config)
    (h : ∃ r, Event.pullImage r ∈ (runMigration env cfg).trace ∧
      env.pullOk r = false) :
    (runMigration env cfg).exit = some 99 ∧
      ∀ e ∈ (runMigration env cfg).trace,
        e.isTransferCall = false ∧ e.isRestoreCall = false ∧
          e.isRegDelete = false := by
  obtain ⟨r, hmem, hfail⟩ := h
  rcases runMigration_cases env cfg with hc | hc | hc |
    ⟨gf, ng, ps, _, _, _, _, hc⟩
  · rw [hc] at hmem; simp at hmem
  · rw [hc] at hmem; simp at hmem
  · rw [hc] at hmem; simp at hmem
  · rcases runCore_cases env cfg gf ng (trimLeadingSlash cfg.newGroupName)
      (ps ++ GetSubGroupsAndProjects env cfg.projectsList) with
      ⟨tr1, hb, hr⟩ | ⟨m, tr1, hb, hr⟩ | ⟨m, tr1, g2, tr2, hb, ht, hr⟩ |
      ⟨m, tr1, g2, tr2, hb, ht, hr⟩
    · rw [hc, hr]
      refine ⟨rfl, ?_⟩
      intro e he
      rcases backupPhase_events env cfg _ e (by rw [hb]; exact he) with hk | hk
      · exact pull_kind_excl e hk
      · exact archival_kind_excl e hk
    · rw [hc, hr] at hmem
      exact absurd (backupPhase_success_pullOk env cfg _ m tr1 hb r hmem)
        (by simp [hfail])
    · rw [hc, hr] at hmem
      rcases List.mem_append.mp hmem with hm | hm
      · exact absurd (backupPhase_success_pullOk env cfg _ m tr1 hb r hm)
          (by simp [hfail])
      · exact (transferGroupPhase_no_pull env cfg gf ng _ r
          (by rw [ht]; exact hm)).elim
    · rw [hc, hr] at hmem
      rcases List.mem_append.mp hmem with hm | hm
      · rcases List.mem_append.mp hm with hm | hm
        · exact absurd (backupPhase_success_pullOk env cfg _ m tr1 hb r hm)
            (by simp [hfail])
        · exact (transferGroupPhase_no_pull env cfg gf ng _ r
            (by rw [ht]; exact hm)).elim
      · exact (restorePhase_no_pull env cfg g2.id m gf.fullPath gf.path _ _ r
          hm).elim

end Migraptor

namespace Migraptor

/-- A group-creation event is none of the eight dry-run-guarded call kinds. -/
theorem groupCreate_kind_excl (e : Event) (h : e.isGroupCreate = true) :
    e.isPull = false ∧ e.isRestoreCall = false ∧ e.isRegDelete = false ∧
      e.isTransferCall = false ∧ e.isArchival = false := by
  cases e <;> simp_all [Event.isGroupCreate, Event.isPull, Event.isRestoreCall,
    Event.isRegDelete, Event.isTransferCall, Event.isArchival]

/-- C6 (amended): in a dry run, every collaborator call the pipeline
issues is a group-creation call — in particular no image pull, tag,
push, registry-repository delete, group transfer, project transfer,
archive or unarchive call is executed.  (The group-creation call of the
preserve-hierarchy + filter branch is the one mutation that is not
dry-run guarded; see `c6_dryrun_cex`.) -/
theorem c6_dryrun_no_guarded_mutations (env : Env) (cfg : Config)
    (hd : cfg.dryRun = true) :
    ∀ e ∈ (runMigration env cfg).trace,
      e.isPull = false ∧ e.isRestoreCall = false ∧ e.isRegDelete = false ∧
        e.isTransferCall = false ∧ e.isArchival = false := by
  intro e he
  rcases runMigration_cases env cfg with hc | hc | hc |
    ⟨gf, ng, ps, _, _, _, _, hc⟩
  · rw [hc] at he; simp at he
  · rw [hc] at he; simp at he
  · rw [hc] at he; simp at he
  · rcases runCore_cases env cfg gf ng (trimLeadingSlash cfg.newGroupName)
      (ps ++ GetSubGroupsAndProjects env cfg.projectsList) with
      ⟨tr1, hb, hr⟩ | ⟨m, tr1, hb, hr⟩ | ⟨m, tr1, g2, tr2, hb, ht, hr⟩ |
      ⟨m, tr1, g2, tr2, hb, ht, hr⟩
    · have h0 : tr1 = [] := by
        have h1 := backupPhase_dry_trace env cfg hd
          (ps ++ GetSubGroupsAndProjects env cfg.projectsList)
        rw [hb] at h1
        exact h1
      rw [hc, hr, h0] at he
      simp at he
    · have h0 : tr1 = [] := by
        have h1 := backupPhase_dry_trace env cfg hd
          (ps ++ GetSubGroupsAndProjects env cfg.projectsList)
        rw [hb] at h1
        exact h1
      rw [hc, hr, h0] at he
      simp at he
    · have h0 : tr1 = [] := by
        have h1 := backupPhase_dry_trace env cfg hd
          (ps ++ GetSubGroupsAndProjects env cfg.projectsList)
        rw [hb] at h1
        exact h1
      rw [hc, hr, h0] at he
      simp only [List.nil_append] at he
      exact groupCreate_kind_excl e
        (transferGroupPhase_dry_events env cfg gf ng _ hd e (by rw [ht]; exact he))
    · have h0 : tr1 = [] := by
        have h1 := backupPhase_dry_trace env cfg hd
          (ps ++ GetSubGroupsAndProjects env cfg.projectsList)
        rw [hb] at h1
        exact h1
      have h3 := restorePhase_dry_trace env cfg g2.id m gf.fullPath gf.path
        (trimLeadingSlash cfg.newGroupName) hd
        (ps ++ GetSubGroupsAndProjects env cfg.projectsList)
      rw [hc, hr, h0, h3] at he
      simp only [List.nil_append, List.append_nil] at he
      exact groupCreate_kind_excl e
        (transferGroupPhase_dry_events env cfg gf ng _ hd e (by rw [ht]; exact he))

/-- With a non-empty filter list, every project surviving the
`ListProjects` filter has its path in the list. -/
theorem projectPathFilter_mem (F : List String) (l : List ProjectInfo)
    (hne : F ≠ []) : ∀ p ∈ projectPathFilter F l, p.path ∈ F := by
  intro p hp
  obtain ⟨_, hcond⟩ := List.mem_filter.mp hp
  rcases (Bool.or_eq_true _ _).mp hcond with h | h
  · exact absurd (List.isEmpty_iff.mp h) hne
  · simpa using h

/-- C9: with a non-empty project filter, every project the pipeline
considers — the `ListProjects` output for the root group merged with
the (filter-applied) subtree discovery — has its path in the filter
list, regardless of container-registry flags and of the
preserve-hierarchy setting; in particular no non-container ride-along
project absent from the filter list is ever processed. -/
theorem c9_listProjects_filter_strict (env : Env) (cfg : Config) (gid : Nat)
    (ps : List ProjectInfo) (hne : cfg.projectsList ≠ [])
    (hlp : ListProjects env gid cfg.projectsList = some ps) :
    ∀ p ∈ ps ++ GetSubGroupsAndProjects env cfg.projectsList,
      p.path ∈ cfg.projectsList := by
  intro p hp
  rcases List.mem_append.mp hp with hp | hp
  · rcases hraw : env.listProjects gid with _ | raw
    · simp [ListProjects, hraw] at hlp
    · simp only [ListProjects, hraw, Option.map_some', Option.some.injEq] at hlp
      rw [← hlp] at hp
      obtain ⟨q, hq, hfq⟩ := List.mem_map.mp hp
      have hmem := projectPathFilter_mem cfg.projectsList raw hne q hq
      rw [← hfq]
      exact hmem
  · exact projectPathFilter_mem cfg.projectsList env.subProjectsRaw hne p hp

end Migraptor

namespace Migraptor

/-- For an archived project in a real run, the re-archive step is
exactly the archive call. -/
theorem archiveStep_real (cfg : Config) (p : ProjectInfo)
    (ha : p.archived = true) (hd : cfg.dryRun = false) :
    archiveStep cfg p = [Event.archiveProject p.id] := by
  simp [archiveStep, ha, hd]

/-- C4 (amended): an originally-archived project's re-archive call is
issued at the end of its restore processing provided the project's
transfer call did not fail (the image-restore step never reports
failure); when the transfer call fails, the project is skipped without
being re-archived (see `c4_rearchive_skipped_cex`). -/
theorem c4_rearchive_after_success (env : Env) (cfg : Config) (tgid : Nat)
    (m : List (Nat × List String)) (ofp op np : String) (p : ProjectInfo)
    (hd : cfg.dryRun = false) (ha : p.archived = true)
    (ht : (!cfg.keepParent || !cfg.projectsList.isEmpty) = true →
      env.transferProjectResp p.id tgid ≠ none) :
    ∃ tr, restoreProject env cfg tgid m ofp op np p =
      tr ++ [Event.archiveProject p.id] := by
  obtain ⟨tr0, htail⟩ :
      ∃ tr0, restoreTail env cfg m ofp op np p =
        tr0 ++ [Event.archiveProject p.id] :=
    ⟨_, by unfold restoreTail; rw [archiveStep_real cfg p ha hd]⟩
  by_cases hc : (!cfg.keepParent || !cfg.projectsList.isEmpty) = true
  · rcases hresp : env.transferProjectResp p.id tgid with _ | code
    · exact absurd hresp (ht hc)
    · exact ⟨Event.transferProject p.id tgid :: tr0,
        by simp [restoreProject, hc, hd, hresp, htail]⟩
  · exact ⟨tr0, by simp [restoreProject, hc, htail]⟩

end Migraptor

namespace Migraptor

/-- C7: the transfer engine is a three-way branch on
(preserve-hierarchy, filter).  (1) Hierarchy preserved, empty filter:
exactly one whole-group transfer call, successful exactly on status
201, and a failure ends the run with exit code 99.  (2) Hierarchy
preserved, non-empty filter: no whole-group transfer; a subgroup named
after the last segment of the source group's path is located — or
created under the destination — and the qualifying (filtered) projects
are transferred individually into it, and only those.  (3) Hierarchy
flattened: no group-level action; every qualifying project is
transferred individually into the destination group. -/
theorem c7_transfer_engine_branches (env : Env) (cfg : Config) (gf ng : Group)
    (np : String) (tgid : Nat) (m : List (Nat × List String)) (ofp op : String)
    (ps : List ProjectInfo) :
    (cfg.keepParent = true → cfg.projectsList = [] → cfg.dryRun = false →
      (transferGroupPhase env cfg gf ng np).2.2 =
        [Event.transferGroup gf.id ng.id] ∧
      ((transferGroupPhase env cfg gf ng np).1 = true ↔
        env.transferGroupResp gf.id ng.id = some 201) ∧
      ((transferGroupPhase env cfg gf ng np).1 = false →
        ∀ m1 tr1, backupPhase env cfg ps = (some m1, tr1) →
        (m1.isEmpty = false → CheckIfRemainingImages env cfg.dryRun ps = true) →
        (runCore env cfg gf ng np ps).exit = some 99)) ∧
    (cfg.keepParent = true → cfg.projectsList ≠ [] →
      (∀ e ∈ (transferGroupPhase env cfg gf ng np).2.2,
        e.isGroupTransfer = false) ∧
      (∀ g, env.searchGroup (np ++ "/" ++ lastSegment gf.path) = some g →
        transferGroupPhase env cfg gf ng np = (true, g, [])) ∧
      (env.searchGroup (np ++ "/" ++ lastSegment gf.path) = none →
        ∀ g, env.createGroup (lastSegment gf.path) ng.id = some g →
          transferGroupPhase env cfg gf ng np =
            (true, g, [Event.createGroup (lastSegment gf.path) ng.id])) ∧
      (cfg.dryRun = false → ∀ p ∈ ps,
        ShouldMigrateProject p cfg.projectsList cfg.keepParent = true →
        Event.transferProject p.id tgid ∈
          restorePhase env cfg tgid m ofp op np ps) ∧
      ((∀ p ∈ ps, p.path ∈ cfg.projectsList) →
        ∀ pid g, Event.transferProject pid g ∈
            restorePhase env cfg tgid m ofp op np ps →
          g = tgid ∧ ∃ p ∈ ps, p.id = pid ∧ p.path ∈ cfg.projectsList)) ∧
    (cfg.keepParent = false →
      transferGroupPhase env cfg gf ng np = (true, ng, []) ∧
      (cfg.dryRun = false → ∀ p ∈ ps,
        ShouldMigrateProject p cfg.projectsList cfg.keepParent = true →
        Event.transferProject p.id tgid ∈
          restorePhase env cfg tgid m ofp op np ps)) := by
  refine ⟨?_, ?_, ?_⟩
  · intro hk hF hd
    have hFe : cfg.projectsList.isEmpty = true := by rw [hF]; rfl
    have hmain : (transferGroupPhase env cfg gf ng np).2.2 =
          [Event.transferGroup gf.id ng.id] ∧
        ((transferGroupPhase env cfg gf ng np).1 = true ↔
          env.transferGroupResp gf.id ng.id = some 201) := by
      rcases hresp : env.transferGroupResp gf.id ng.id with _ | code
      · simp [transferGroupPhase, hk, hFe, hd, hresp]
      · constructor
        · simp [transferGroupPhase, hk, hFe, hd, hresp]
        · simp [transferGroupPhase, hk, hFe, hd, hresp]
    refine ⟨hmain.1, hmain.2, ?_⟩
    intro hfail m1 tr1 hb hchk
    rcases htp : transferGroupPhase env cfg gf ng np with ⟨ok, g2, tr2⟩
    rw [htp] at hfail
    simp only at hfail
    subst hfail
    have hcond : (!m1.isEmpty && !CheckIfRemainingImages env cfg.dryRun ps) = false := by
      by_cases hm1 : m1.isEmpty = true
      · simp [hm1]
      · have := hchk (by simpa using hm1)
        simp [this]
    simp [runCore, hb, hcond, htp]
  · intro hk hF
    have hFe : cfg.projectsList.isEmpty = false := by
      rcases hq : cfg.projectsList with _ | ⟨a, l⟩
      · exact absurd hq hF
      · rfl
    have hc : (!cfg.keepParent || !cfg.projectsList.isEmpty) = true := by
      simp [hk, hFe]
    refine ⟨?_, ?_, ?_, ?_, ?_⟩
    · intro e he
      rcases hsg : env.searchGroup (np ++ "/" ++ lastSegment gf.path) with _ | g
      · rcases hcg : env.createGroup (lastSegment gf.path) ng.id with _ | g <;>
          simp only [transferGroupPhase, hk, hFe, Bool.false_eq_true, if_false,
            if_true, hsg, hcg] at he <;>
          (simp at he; subst he; rfl)
      · simp [transferGroupPhase, hk, hFe, hsg] at he
    · intro g hsg
      simp [transferGroupPhase, hk, hFe, hsg]
    · intro hsg g hcg
      simp [transferGroupPhase, hk, hFe, hsg, hcg]
    · intro hd p hp hs
      exact restorePhase_transfer_mem env cfg tgid m ofp op np hd hc ps p hp hs
    · intro hps pid g he
      obtain ⟨hg, p, hp, hpid, _⟩ :=
        restorePhase_transfer_only env cfg tgid m ofp op np ps pid g he
      exact ⟨hg, p, hp, hpid, hps p hp⟩
  · intro hk
    have hc : (!cfg.keepParent || !cfg.projectsList.isEmpty) = true := by
      simp [hk]
    refine ⟨by simp [transferGroupPhase, hk], ?_⟩
    intro hd p hp hs
    exact restorePhase_transfer_mem env cfg tgid m ofp op np hd hc ps p hp hs

end Migraptor

namespace Migraptor

/-! ## Concrete fixtures exercising the pipeline paths -/

/-- A non-container project. -/
def projPlain : ProjectInfo := ⟨1, "a", "a", false, false, []⟩

/-- A container-registry project. -/
def projReg : ProjectInfo := ⟨1, "a", "a", true, false, []⟩

/-- An archived non-container project. -/
def projArch : ProjectInfo := ⟨1, "a", "a", false, true, []⟩

/-- The source group fixture. -/
def grpSrc : Group := ⟨10, "src", "src"⟩

/-- The destination group fixture. -/
def grpDst : Group := ⟨20, "dst", "dst"⟩

/-- Happy-path oracle environment over the fixtures. -/
def envBase : Env where
  searchGroup := fun s =>
    if s = "src" then some grpSrc
    else if s = "dst" then some grpDst
    else none
  listProjects := fun g => if g = 10 then some [projPlain] else none
  subProjectsRaw := []
  listRegistryRepositories := fun _ => some []
  listTags := fun _ _ => some []
  pullOk := fun _ => true
  tagOk := fun _ _ => true
  transferGroupResp := fun _ _ => some 201
  transferProjectResp := fun _ _ => some 200
  archiveResp := fun _ => some 200
  unarchiveResp := fun _ => some 200
  createGroup := fun _ _ => some ⟨30, "src", "dst/src"⟩
  remainingRepos := fun _ _ => []

/-- Flatten-mode configuration: no dry-run, no filter. -/
def cfgFlat : Config := ⟨false, false, [], [], "src", "dst"⟩

/-- Dry-run, preserve-hierarchy configuration with a project filter. -/
def cfgC6 : Config := ⟨true, true, ["a"], [], "src", "dst"⟩

/-- Environment with one registry project whose repository list never
empties (eviction consistency never confirmed). -/
def envC2 : Env :=
  { envBase with
    listProjects := fun g => if g = 10 then some [projReg] else none
    listRegistryRepositories := fun pid =>
      if pid = 1 then some [⟨100, "r"⟩] else some []
    listTags := fun pid rid =>
      if pid = 1 && rid = 100 then some [⟨"latest", "pp", "loc1"⟩] else some []
    remainingRepos := fun _ _ => [⟨100, "r"⟩] }

/-- Like `envC2` but every image pull fails. -/
def envC1 : Env := { envC2 with pullOk := fun _ => false }

/-- Environment with one archived project whose transfer call fails. -/
def envC4 : Env :=
  { envBase with
    listProjects := fun g => if g = 10 then some [projArch] else none
    transferProjectResp := fun _ _ => none }

/-- C2 at the failing input: with the repository list never emptying,
the eviction waiter exhausts its 30-attempt budget, returns an error,
and the pipeline exits with code 99 — no transfer call is ever issued,
contradicting the claim that the run proceeds to the transfer phase. -/
theorem c2_poll_exhaustion_stops_run :
    (runMigration envC2 cfgFlat).exit = some 99 ∧
      ∀ e ∈ (runMigration envC2 cfgFlat).trace, e.isTransferCall = false := by
  decide

/-- C4 counterexample: an archived project is unarchived by the
pipeline, its transfer call fails, and no re-archive call is ever
issued — the re-archive is skipped on transfer failure. -/
theorem c4_rearchive_skipped_cex :
    cfgFlat.dryRun = false ∧ projArch.archived = true ∧
      Event.unarchiveProject 1 ∈ (runMigration envC4 cfgFlat).trace ∧
      Event.archiveProject 1 ∉ (runMigration envC4 cfgFlat).trace := by
  decide

/-- C6 counterexample: in a dry run with hierarchy preserved, a
non-empty filter, and the destination subgroup absent, a real
group-creation call is issued to the platform. -/
theorem c6_dryrun_cex :
    cfgC6.dryRun = true ∧
      Event.createGroup "src" 20 ∈ (runMigration envBase cfgC6).trace := by
  decide

/-- Witness for `c1_pull_failure_fatal` at a concrete failing pull. -/
theorem c1_pull_failure_fatal_witness :
    (∃ r, Event.pullImage r ∈ (runMigration envC1 cfgFlat).trace ∧
      envC1.pullOk r = false) ∧
    ((runMigration envC1 cfgFlat).exit = some 99 ∧
      ∀ e ∈ (runMigration envC1 cfgFlat).trace,
        e.isTransferCall = false ∧ e.isRestoreCall = false ∧
          e.isRegDelete = false) :=
  ⟨⟨"loc1", by decide, rfl⟩,
    c1_pull_failure_fatal envC1 cfgFlat ⟨"loc1", by decide, rfl⟩⟩

/-- Witness for `c4_rearchive_after_success` at a concrete input. -/
theorem c4_rearchive_after_success_witness :
    cfgFlat.dryRun = false ∧ projArch.archived = true ∧
      ∃ tr, restoreProject envBase cfgFlat 20 [] "src" "src" "dst" projArch =
        tr ++ [Event.archiveProject projArch.id] :=
  ⟨rfl, rfl, c4_rearchive_after_success envBase cfgFlat 20 [] "src" "src" "dst"
    projArch rfl rfl (fun _ => by decide)⟩

/-- Witness for `c6_dryrun_no_guarded_mutations` at a concrete dry run. -/
theorem c6_dryrun_no_guarded_mutations_witness :
    cfgC6.dryRun = true ∧
      ∀ e ∈ (runMigration envBase cfgC6).trace,
        e.isPull = false ∧ e.isRestoreCall = false ∧ e.isRegDelete = false ∧
          e.isTransferCall = false ∧ e.isArchival = false :=
  ⟨rfl, c6_dryrun_no_guarded_mutations envBase cfgC6 rfl⟩

/-- Witness for `c7_transfer_engine_branches`: flatten-mode consequences
at a concrete input. -/
theorem c7_transfer_engine_branches_witness :
    transferGroupPhase envBase cfgFlat grpSrc grpDst "dst" = (true, grpDst, []) ∧
      Event.transferProject 1 20 ∈
        restorePhase envBase cfgFlat 20 [] "src" "src" "dst" [projPlain] := by
  have h := (c7_transfer_engine_branches envBase cfgFlat grpSrc grpDst "dst" 20 []
    "src" "src" [projPlain]).2.2 rfl
  exact ⟨h.1, h.2 rfl projPlain (by decide) (by decide)⟩

/-- Witness for `c8_backup_before_delete` at a concrete project. -/
theorem c8_backup_before_delete_witness :
    backupThenEvict envC2 false projReg [] =
      (some ["loc1"], [Event.pullImage "loc1", Event.deleteRepo 1 100]) ∧
    (∃ tr1 tr2,
      ([Event.pullImage "loc1", Event.deleteRepo 1 100] : List Event) =
        tr1 ++ tr2 ∧
      (∀ e ∈ tr1, e.isPull = true) ∧
      (∀ e ∈ tr2, e.isRegDelete = true) ∧
      (∀ r, Event.pullImage r ∈ tr1 → envC2.pullOk r = true) ∧
      (∀ rs, envC2.listRegistryRepositories projReg.id = some rs →
        ∀ r ∈ rs, ∀ imgs, GetImages envC2 projReg.id r.id [] = some imgs →
          (∀ i ∈ imgs, Event.pullImage i.location ∈ tr1) ∧
            (imgs ≠ [] → (["loc1"] : List String) ≠ []))) :=
  ⟨by decide,
    c8_backup_before_delete envC2 projReg [] ["loc1"]
      [Event.pullImage "loc1", Event.deleteRepo 1 100] (by decide)⟩

/-- Witness for `c9_listProjects_filter_strict` at a concrete filter. -/
theorem c9_listProjects_filter_strict_witness :
    cfgC6.projectsList ≠ [] ∧
      ListProjects envBase 10 cfgC6.projectsList = some [projPlain] ∧
      ∀ p ∈ [projPlain] ++ GetSubGroupsAndProjects envBase cfgC6.projectsList,
        p.path ∈ cfgC6.projectsList :=
  ⟨by decide, by decide,
    c9_listProjects_filter_strict envBase cfgC6 10 [projPlain] (by decide)
      (by decide)⟩

/-- Witness for `c10_backup_dryrun_refines_real` at a concrete project. -/
theorem c10_backup_dryrun_refines_real_witness :
    (∀ r, envC2.pullOk r = true) ∧
      (BackupImages envC2 true projReg []).1 =
        (BackupImages envC2 false projReg []).1 :=
  ⟨fun _ => rfl, c10_backup_dryrun_refines_real envC2 projReg [] (fun _ => rfl)⟩

end Migraptor
